import Mathlib

/-!
Shallow embedding of `server/extract_docs.py`, a best-effort extractor for
PDF and DOCX text.  Python strings are modelled as `List Char` (sequences of
Unicode code points), byte sequences as `List Nat` (each element < 256).
External libraries whose observable outcomes the script merely consumes
(`zipfile`, `xml.etree.ElementTree`, `pypdf`) are modelled as components of
an abstract `World`; the standard-library routines whose exact semantics the
claims depend on (`str.strip`, `str.join`, `base64.b64decode`,
`json.dumps`) are embedded concretely, following CPython's documented
behaviour.  Exceptions are modelled by `Option`/`Except` results: every
Lean function here is total, mirroring the fact that the Python functions
catch every exception raised inside their `try` blocks.
-/

/-- Unicode code points that CPython's `str.strip()` (and `str.isspace`)
treats as whitespace. -/
def pyIsSpace (c : Char) : Bool :=
  decide ((9 ≤ c.toNat ∧ c.toNat ≤ 13) ∨ (28 ≤ c.toNat ∧ c.toNat ≤ 32) ∨
    c.toNat = 133 ∨ c.toNat = 160 ∨ c.toNat = 5760 ∨
    (8192 ≤ c.toNat ∧ c.toNat ≤ 8202) ∨ c.toNat = 8232 ∨ c.toNat = 8233 ∨
    c.toNat = 8239 ∨ c.toNat = 8287 ∨ c.toNat = 12288)

/-- Python `s.strip()`: remove leading and trailing whitespace. -/
def pyStrip (s : List Char) : List Char :=
  ((s.dropWhile pyIsSpace).reverse.dropWhile pyIsSpace).reverse

/-- Python `sep.join(pieces)`: interleave `sep` between the pieces. -/
def pyJoin (sep : List Char) : List (List Char) → List Char
  | [] => []
  | [x] => x
  | x :: y :: xs => x ++ sep ++ pyJoin sep (y :: xs)

/-- Value of a character in the standard base64 alphabet
(CPython's `table_a2b_base64`), `none` for every other character. -/
def b64Val (c : Char) : Option Nat :=
  if 'A' ≤ c ∧ c ≤ 'Z' then some (c.toNat - 65)
  else if 'a' ≤ c ∧ c ≤ 'z' then some (c.toNat - 97 + 26)
  else if '0' ≤ c ∧ c ≤ '9' then some (c.toNat - 48 + 52)
  else if c = '+' then some 62
  else if c = '/' then some 63
  else none

/-- The state machine of CPython's `binascii.a2b_base64` in non-strict
mode (the mode used by `base64.b64decode` with `validate=False`): invalid
characters are skipped, a sufficient padding sequence terminates decoding
successfully, and a leftover quad position at the end is an error
(`none` models the raised `binascii.Error`).  Arguments: input, quad
position, leftover bits, pending pad count, accumulated output bytes in
reverse. -/
def a2bGo : List Char → Nat → Nat → Nat → List Nat → Option (List Nat)
  | [], qp, _, _, acc => if qp = 0 then some acc.reverse else none
  | c :: rest, qp, lc, pads, acc =>
    if c = '=' then
      if 2 ≤ qp then
        if 4 ≤ qp + (pads + 1) then some acc.reverse
        else a2bGo rest qp lc (pads + 1) acc
      else a2bGo rest qp lc pads acc
    else
      match b64Val c with
      | none => a2bGo rest qp lc pads acc
      | some v =>
        match qp with
        | 0 => a2bGo rest 1 v 0 acc
        | 1 => a2bGo rest 2 (v % 16) 0 ((lc * 4 + v / 16) :: acc)
        | 2 => a2bGo rest 3 (v % 4) 0 ((lc * 16 + v / 4) :: acc)
        | _ => a2bGo rest 0 0 0 ((lc * 64 + v) :: acc)

/-- `binascii.a2b_base64(s)` in non-strict mode, over a text already known
to be ASCII. -/
def a2bBase64 (s : List Char) : Option (List Nat) :=
  a2bGo s 0 0 0 []

/-- `read_stdin` from `server/extract_docs.py`: strip the stdin text, map
an empty payload to empty bytes, and base64-decode with every failure
(`s.encode('ascii')` failing on a non-ASCII character, or the decoder
raising `binascii.Error`) caught and mapped to empty bytes. -/
def read_stdin (stdin : List Char) : List Nat :=
  let payload := pyStrip stdin
  if payload = [] then []
  else if payload.any (fun c => decide (128 ≤ c.toNat)) then []
  else
    match a2bBase64 payload with
    | some bs => bs
    | none => []

/-- Printable-ASCII test used by the Tier 2 heuristic of `extract_pdf`
(`32 <= byte <= 126`). -/
def isPrintableByte (b : Nat) : Bool :=
  decide (32 ≤ b ∧ b ≤ 126)

/-- The byte-scanning loop of `extract_pdf`'s Tier 2 heuristic: `run` is
the current run of printable characters, `printable` the list of completed
runs of length at least 6, both in scan order. -/
def tier2Scan : List Nat → List Char → List (List Char) → List (List Char)
  | [], run, printable =>
    if 6 ≤ run.length then printable ++ [run] else printable
  | b :: rest, run, printable =>
    if isPrintableByte b then
      tier2Scan rest (run ++ [Char.ofNat b]) printable
    else if 6 ≤ run.length then tier2Scan rest [] (printable ++ [run])
    else tier2Scan rest [] printable

/-- Tier 2 of `extract_pdf`: scan for printable runs, keep the first 400,
join with single spaces and strip. -/
def tier2 (data : List Nat) : List Char :=
  pyStrip (pyJoin [' '] ((tier2Scan data [] []).take 400))

/-- XML element tree as produced by `xml.etree.ElementTree.fromstring`:
a tag, the text directly following the start tag (`Element.text`, which
may be absent), and the child elements in document order. -/
inductive XmlElem where
  | node (tag : List Char) (text : Option (List Char)) (children : List XmlElem)

def XmlElem.tag : XmlElem → List Char
  | .node t _ _ => t

def XmlElem.text : XmlElem → Option (List Char)
  | .node _ x _ => x

/-- `Element.iter()`: depth-first preorder traversal, the element itself
first. -/
def XmlElem.iter : XmlElem → List XmlElem
  | .node t x cs => .node t x cs :: (cs.attach.map fun c => XmlElem.iter c.1).flatten
decreasing_by
  have h := List.sizeOf_lt_of_mem c.2
  simp only [XmlElem.node.sizeOf_spec]
  omega

/-- The body of the `for element in root.iter()` loop of `extract_docx`:
collect `element.text` whenever `element.tag.endswith('}t')` holds and
`element.text` is truthy (present and non-empty). -/
def docxTexts (root : XmlElem) : List (List Char) :=
  root.iter.filterMap fun e =>
    match e.text with
    | some s => if ['}', 't'].isSuffixOf e.tag ∧ s ≠ [] then some s else none
    | none => none

/-- The abstract outcomes of the external libraries the script calls.
`unzip` models `zipfile.ZipFile` over a byte sequence: `none` when
construction raises, otherwise the archive's entries (name, content) in
archive order, with `doc.read()` failures folded into `none` as well.
`xmlParse` models `ET.fromstring`: `none` when parsing raises.
`pdfTier1` models `from pypdf import PdfReader` plus
`PdfReader(...)` plus the iteration over `reader.pages`: `Except.error`
when the import, the construction or the page iteration raises (Tier 1
aborted), otherwise one outcome per page, where a page's
`Except.error` models `page.extract_text()` raising and `Except.ok`
carries its return value (`none` models Python `None`). -/
structure World where
  unzip : List Nat → Option (List (String × List Nat))
  xmlParse : List Nat → Option XmlElem
  pdfTier1 : List Nat → Except Unit (List (Except Unit (Option (List Char))))

/-- `archive.open(name)` goes through `NameToInfo`, a dict built from the
entry list in order, so a duplicate name resolves to the last entry. -/
def lookupEntry (entries : List (String × List Nat)) (name : String) :
    Option (List Nat) :=
  entries.foldl (fun acc e => if e.1 = name then some e.2 else acc) none

/-- The name of the entry `extract_docx` reads. -/
def docEntryName : String := "word/document.xml"

/-- The composite of the fallible steps inside `extract_docx`'s `try`
block: open the archive, read `word/document.xml`, parse it; `none` if
any step raises (or the input is empty, which short-circuits before the
`try`). -/
def docxDoc (w : World) (data : List Nat) : Option XmlElem :=
  if data = [] then none
  else
    match w.unzip data with
    | none => none
    | some entries =>
      match lookupEntry entries docEntryName with
      | none => none
      | some xmlBytes => w.xmlParse xmlBytes

/-- `extract_docx` from `server/extract_docs.py`. -/
def extract_docx (w : World) (data : List Nat) : List Char :=
  match docxDoc w data with
  | none => []
  | some root => pyStrip (pyJoin [' '] (docxTexts root))

/-- The chunk list built by `extract_pdf`'s Tier 1 page loop: a raising
page is skipped (`continue`), a returning page contributes
`page.extract_text() or ""`. -/
def pageChunks (pages : List (Except Unit (Option (List Char)))) :
    List (List Char) :=
  pages.filterMap fun p =>
    match p with
    | .ok s => some (s.getD [])
    | .error _ => none

/-- `extract_pdf` from `server/extract_docs.py`: empty input
short-circuits; Tier 1 joins the page chunks with newlines and strips;
any Tier 1 failure falls through to the Tier 2 byte heuristic. -/
def extract_pdf (w : World) (data : List Nat) : List Char :=
  if data = [] then []
  else
    match w.pdfTier1 data with
    | .ok pages => pyStrip (pyJoin ['\n'] (pageChunks pages))
    | .error _ => tier2 data

/-- Hex digit characters as produced by CPython's `'%04x'` formatting
(lowercase). -/
def hexDigitChar (n : Nat) : Char :=
  if n < 10 then Char.ofNat (48 + n) else Char.ofNat (87 + n)

/-- Per-character escaping of `json.dumps` with `ensure_ascii=False`
(CPython's `py_encode_basestring`): backslash, double quote and the
named control characters get two-character escapes, the remaining
control characters get `\u00xx`, and every other character — including
every non-ASCII character — is emitted literally. -/
def escapeJsonChar (c : Char) : List Char :=
  if c = '\\' then ['\\', '\\']
  else if c = '"' then ['\\', '"']
  else if c.toNat < 32 then
    if c.toNat = 8 then ['\\', 'b']
    else if c.toNat = 9 then ['\\', 't']
    else if c.toNat = 10 then ['\\', 'n']
    else if c.toNat = 12 then ['\\', 'f']
    else if c.toNat = 13 then ['\\', 'r']
    else ['\\', 'u', '0', '0',
      hexDigitChar (c.toNat / 16), hexDigitChar (c.toNat % 16)]
  else [c]

def escapeJsonString (t : List Char) : List Char :=
  t.flatMap escapeJsonChar

/-- `json.dumps({'text': text}, ensure_ascii=False)`: with the default
separators this is the open brace, the quoted key `text`, a colon and a
space, the escaped quoted value, and the closing brace. -/
def jsonDumpsTextObj (t : List Char) : List Char :=
  '{' :: '"' :: 't' :: 'e' :: 'x' :: 't' :: '"' :: ':' :: ' ' :: '"' ::
    (escapeJsonString t ++ ['"', '}'])

/-- `sys.argv[1] if len(sys.argv) > 1 else ''`; the argument list still
contains the program name at position 0. -/
def argvMime (argv : List String) : String :=
  match argv with
  | _ :: m :: _ => m
  | _ => ""

def docxMime : String :=
  "application/vnd.openxmlformats-officedocument.wordprocessingml.document"

def pdfMime : String := "application/pdf"

/-- The `text` value computed by `main`'s dispatch. -/
def extractedText (w : World) (argv : List String) (stdin : List Char) :
    List Char :=
  if argvMime argv = docxMime then extract_docx w (read_stdin stdin)
  else if argvMime argv = pdfMime then extract_pdf w (read_stdin stdin)
  else []

/-- `main` from `server/extract_docs.py`: the full text written to
standard output for a given argument list and standard-input text. -/
def mainOutput (w : World) (argv : List String) (stdin : List Char) :
    List Char :=
  jsonDumpsTextObj (extractedText w argv stdin)

/-- Value of a hexadecimal digit per the JSON grammar (both cases),
`none` otherwise. -/
def hexVal (c : Char) : Option Nat :=
  if '0' ≤ c ∧ c ≤ '9' then some (c.toNat - 48)
  else if 'a' ≤ c ∧ c ≤ 'f' then some (c.toNat - 87)
  else if 'A' ≤ c ∧ c ≤ 'F' then some (c.toNat - 55)
  else none

/-- The single-character escapes of the JSON grammar. -/
def escOf (e : Char) : Option Char :=
  if e = '"' then some '"'
  else if e = '\\' then some '\\'
  else if e = '/' then some '/'
  else if e = 'b' then some (Char.ofNat 8)
  else if e = 'f' then some (Char.ofNat 12)
  else if e = 'n' then some (Char.ofNat 10)
  else if e = 'r' then some (Char.ofNat 13)
  else if e = 't' then some (Char.ofNat 9)
  else none

/-- Parser for the body of a JSON string literal (everything after the
opening quote), per the JSON grammar: unescaped characters must be at
least `U+0020` and must not be a quote or a backslash; escapes are the
named ones or `\uXXXX`.  Returns the denoted character sequence and the
input remaining after the closing quote. -/
def parseStrBody : List Char → Option (List Char × List Char)
  | [] => none
  | c :: rest =>
    if c = '"' then some ([], rest)
    else if c = '\\' then
      match rest with
      | [] => none
      | e :: r2 =>
        if e = 'u' then
          match r2 with
          | h1 :: h2 :: h3 :: h4 :: r =>
            match hexVal h1, hexVal h2, hexVal h3, hexVal h4 with
            | some a, some b, some cc, some d =>
              (parseStrBody r).map fun p =>
                (Char.ofNat (a * 4096 + b * 256 + cc * 16 + d) :: p.1, p.2)
            | _, _, _, _ => none
          | _ => none
        else
          match escOf e with
          | some ch => (parseStrBody r2).map fun p => (ch :: p.1, p.2)
          | none => none
    else if 32 ≤ c.toNat then (parseStrBody rest).map fun p => (c :: p.1, p.2)
    else none

/-- JSON insignificant whitespace. -/
def skipWs (s : List Char) : List Char :=
  s.dropWhile fun c => decide (c = ' ' ∨ c = '\t' ∨ c = '\n' ∨ c = '\r')

/-- Parser for a complete JSON text consisting of exactly one object with
exactly one member, whose name is `text` and whose value is a string;
returns that string value.  Written against the JSON grammar, so success
certifies that the input is syntactically valid JSON of that shape. -/
def parseTextObj (s : List Char) : Option (List Char) :=
  match skipWs s with
  | '{' :: s1 =>
    match skipWs s1 with
    | '"' :: s2 =>
      match parseStrBody s2 with
      | some (key, s3) =>
        if key = ['t', 'e', 'x', 't'] then
          match skipWs s3 with
          | ':' :: s4 =>
            match skipWs s4 with
            | '"' :: s5 =>
              match parseStrBody s5 with
              | some (v, s6) =>
                match skipWs s6 with
                | '}' :: s7 => if skipWs s7 = [] then some v else none
                | _ => none
              | none => none
            | _ => none
          | _ => none
        else none
      | none => none
    | _ => none
  | _ => none

/-- Claim-side: the maximal runs of consecutive printable bytes of a byte
sequence, in scan order (a run may end at the end of the input). -/
def maximalRuns : List Nat → List (List Nat)
  | [] => []
  | b :: rest =>
    if isPrintableByte b then
      (b :: rest).takeWhile isPrintableByte ::
        maximalRuns ((b :: rest).dropWhile isPrintableByte)
    else maximalRuns rest
termination_by l => l.length
decreasing_by
  · simp only [List.dropWhile_cons_of_pos ‹_›, List.length_cons]
    exact Nat.lt_succ_of_le (List.dropWhile_sublist _).length_le
  · simp

/-- Claim-side: the Tier 2 output as the claim describes it — the first
at most 400 maximal printable runs of length at least 6, each converted
one character per byte, space-joined and trimmed. -/
def claimedTier2 (data : List Nat) : List Char :=
  pyStrip (pyJoin [' ']
    ((((maximalRuns data).filter fun r => decide (6 ≤ r.length)).take 400).map
      fun r => r.map Char.ofNat))

/-- Claim-side: the local tag name — the part of the tag after its last
namespace delimiter, or the whole tag when there is none. -/
def localName (tag : List Char) : List Char :=
  (tag.reverse.takeWhile fun c => decide (c ≠ '}')).reverse

/-- Claim-side: the text fragments `extract_docx` is claimed to collect —
those of every element whose local tag name equals `t`, namespaced or
not. -/
def claimedDocxTexts (root : XmlElem) : List (List Char) :=
  root.iter.filterMap fun e =>
    match e.text with
    | some s => if localName e.tag = ['t'] ∧ s ≠ [] then some s else none
    | none => none

/-- Claim-side: well-formed base64 in the RFC 4648 sense — length a
multiple of four, at most two trailing padding characters, and every
other character from the base64 alphabet. -/
def isWellFormedBase64 (s : List Char) : Bool :=
  let pads := (s.reverse.takeWhile fun c => decide (c = '=')).length
  decide (s.length % 4 = 0) && decide (pads ≤ 2) &&
    (s.take (s.length - pads)).all fun c => (b64Val c).isSome

/-- A world in which every library call fails: no PDF library, unreadable
archives, unparseable XML. -/
def failWorld : World where
  unzip := fun _ => none
  xmlParse := fun _ => none
  pdfTier1 := fun _ => .error ()

/-- The XML tree of the document `<t>hi</t>`: a root element named `t`
with no namespace, text `hi`, no children. -/
def cexRoot : XmlElem :=
  .node ['t'] (some ['h', 'i']) []

/-- A world matching a real run in which the payload `[1]` stands for a
well-formed ZIP archive whose entry `word/document.xml` holds the
well-formed document `<t>hi</t>` (for such an archive `zipfile` yields
the entry and `ET.fromstring` yields `cexRoot`); no PDF library. -/
def cexWorld : World where
  unzip := fun d => if d = [1] then some [("word/document.xml", [7])] else none
  xmlParse := fun b => if b = [7] then some cexRoot else none
  pdfTier1 := fun _ => .error ()

/-- A world whose PDF reader yields three pages: one whose text
extraction raises, one returning `a`, one returning `None`. -/
def pagesWorld : World where
  unzip := fun _ => none
  xmlParse := fun _ => none
  pdfTier1 := fun _ => .ok [.error (), .ok (some ['a']), .ok none]

/-- The fragments collected under the amended reading of the DOCX claim:
elements whose tag carries a namespace delimiter and whose local name is
`t` (equivalently, whose tag ends in the two characters `}` `t`). -/
def amendedDocxTexts (root : XmlElem) : List (List Char) :=
  root.iter.filterMap fun e =>
    match e.text with
    | some s =>
      if ('}' ∈ e.tag ∧ localName e.tag = ['t']) ∧ s ≠ [] then some s else none
    | none => none

theorem takeWhile_all_break {α : Type} {p : α → Bool} (run : List α) (b : α)
    (rest : List α) (h : ∀ x ∈ run, p x = true) (hb : p b = false) :
    (run ++ b :: rest).takeWhile p = run := by
  induction run with
  | nil => simp [List.takeWhile_cons, hb]
  | cons r rs ih =>
    have hr : p r = true := h r (by simp)
    simp only [List.cons_append, List.takeWhile_cons, hr, if_true]
    rw [ih fun x hx => h x (by simp [hx])]

theorem dropWhile_all_break {α : Type} {p : α → Bool} (run : List α) (b : α)
    (rest : List α) (h : ∀ x ∈ run, p x = true) (hb : p b = false) :
    (run ++ b :: rest).dropWhile p = b :: rest := by
  induction run with
  | nil => simp [List.dropWhile_cons, hb]
  | cons r rs ih =>
    have hr : p r = true := h r (by simp)
    simp only [List.cons_append, List.dropWhile_cons, hr, if_true]
    exact ih fun x hx => h x (by simp [hx])

theorem takeWhile_all {α : Type} {p : α → Bool} (run : List α)
    (h : ∀ x ∈ run, p x = true) : run.takeWhile p = run := by
  induction run with
  | nil => rfl
  | cons r rs ih =>
    have hr : p r = true := h r (by simp)
    simp only [List.takeWhile_cons, hr, if_true]
    rw [ih fun x hx => h x (by simp [hx])]

theorem dropWhile_all {α : Type} {p : α → Bool} (run : List α)
    (h : ∀ x ∈ run, p x = true) : run.dropWhile p = [] := by
  induction run with
  | nil => rfl
  | cons r rs ih =>
    have hr : p r = true := h r (by simp)
    simp only [List.dropWhile_cons, hr, if_true]
    exact ih fun x hx => h x (by simp [hx])

theorem maximalRuns_all (run : List Nat)
    (h : ∀ x ∈ run, isPrintableByte x = true) :
    maximalRuns run = if run = [] then [] else [run] := by
  cases run with
  | nil => simp [maximalRuns]
  | cons r rs =>
    have hr : isPrintableByte r = true := h r (by simp)
    rw [maximalRuns]
    simp only [hr, if_true, takeWhile_all _ h, dropWhile_all _ h]
    simp [maximalRuns]

theorem maximalRuns_append_of_break (run : List Nat) (b : Nat) (rest : List Nat)
    (hrun : ∀ x ∈ run, isPrintableByte x = true)
    (hb : isPrintableByte b = false) :
    maximalRuns (run ++ b :: rest)
      = (if run = [] then [] else [run]) ++ maximalRuns rest := by
  have hbrest : maximalRuns (b :: rest) = maximalRuns rest := by
    rw [maximalRuns, if_neg]
    simp [hb]
  cases run with
  | nil => simpa using hbrest
  | cons r rs =>
    have hr : isPrintableByte r = true := hrun r (by simp)
    have h1 : (r :: rs) ++ b :: rest = r :: (rs ++ b :: rest) := by simp
    have h2 : r :: (rs ++ b :: rest) = (r :: rs) ++ b :: rest := h1.symm
    rw [h1, maximalRuns, if_pos hr, h2,
      takeWhile_all_break _ _ _ hrun hb, dropWhile_all_break _ _ _ hrun hb,
      hbrest]
    simp

theorem tier2Scan_eq (data : List Nat) : ∀ (run : List Nat),
    (∀ x ∈ run, isPrintableByte x = true) → ∀ (acc : List (List Char)),
    tier2Scan data (run.map Char.ofNat) acc
      = acc ++ (((maximalRuns (run ++ data)).filter fun r =>
          decide (6 ≤ r.length)).map fun r => r.map Char.ofNat) := by
  induction data with
  | nil =>
    intro run hrun acc
    rw [tier2Scan, List.append_nil, maximalRuns_all run hrun]
    simp only [List.length_map]
    by_cases hnil : run = []
    · subst hnil
      simp
    · rw [if_neg hnil]
      by_cases hlen : 6 ≤ run.length
      · rw [if_pos hlen]
        simp [List.filter, hlen]
      · rw [if_neg hlen]
        simp [List.filter, hlen]
  | cons b rest ih =>
    intro run hrun acc
    by_cases hb : isPrintableByte b = true
    · rw [tier2Scan, if_pos hb,
        show List.map Char.ofNat run ++ [Char.ofNat b]
          = (run ++ [b]).map Char.ofNat by simp,
        ih (run ++ [b]) (by
          intro x hx
          rcases List.mem_append.1 hx with h | h
          · exact hrun x h
          · simp at h
            exact h ▸ hb) acc,
        show (run ++ [b]) ++ rest = run ++ b :: rest by simp]
    · have hb' : isPrintableByte b = false := by
        cases h : isPrintableByte b
        · rfl
        · exact absurd h hb
      have ih0 := ih [] (by simp)
      simp only [List.map_nil, List.nil_append] at ih0
      rw [tier2Scan, if_neg (by simp [hb']),
        maximalRuns_append_of_break run b rest hrun hb',
        List.filter_append, List.map_append]
      simp only [List.length_map]
      by_cases hlen : 6 ≤ run.length
      · rw [if_pos hlen, ih0 (acc ++ [run.map Char.ofNat])]
        have hnil : run ≠ [] := by
          intro h
          rw [h] at hlen
          simp at hlen
        rw [if_neg hnil]
        simp [List.filter, hlen, List.append_assoc]
      · rw [if_neg hlen, ih0 acc]
        by_cases hnil : run = []
        · simp [hnil]
        · rw [if_neg hnil]
          simp [List.filter, hlen]

theorem tier2_eq_claimed (data : List Nat) : tier2 data = claimedTier2 data := by
  have h := tier2Scan_eq data [] (by simp) []
  simp only [List.map_nil, List.nil_append] at h
  rw [tier2, h, claimedTier2, List.map_take]

theorem mem_pyStrip {c : Char} {s : List Char} (h : c ∈ pyStrip s) : c ∈ s := by
  rw [pyStrip] at h
  rw [List.mem_reverse] at h
  have h2 := (List.dropWhile_sublist pyIsSpace).subset h
  rw [List.mem_reverse] at h2
  exact (List.dropWhile_sublist pyIsSpace).subset h2

theorem mem_pyJoin {c : Char} {sep : List Char} :
    ∀ {l : List (List Char)}, c ∈ pyJoin sep l → c ∈ sep ∨ ∃ x ∈ l, c ∈ x := by
  intro l
  induction l with
  | nil => intro h; simp [pyJoin] at h
  | cons x xs ih =>
    cases xs with
    | nil =>
      intro h
      rw [pyJoin] at h
      exact Or.inr ⟨x, by simp, h⟩
    | cons y ys =>
      intro h
      rw [pyJoin] at h
      rcases List.mem_append.1 h with h1 | h1
      · rcases List.mem_append.1 h1 with h2 | h2
        · exact Or.inr ⟨x, by simp, h2⟩
        · exact Or.inl h2
      · rcases ih h1 with h2 | ⟨z, hz1, hz2⟩
        · exact Or.inl h2
        · exact Or.inr ⟨z, by simp [hz1], hz2⟩

theorem toNat_ofNat_small : ∀ b : Nat, b < 127 → (Char.ofNat b).toNat = b := by
  decide

theorem mem_maximalRuns_printable :
    ∀ (data : List Nat), ∀ r ∈ maximalRuns data, ∀ x ∈ r, isPrintableByte x = true := by
  intro data
  induction data using maximalRuns.induct with
  | case1 => simp [maximalRuns]
  | case2 b rest hb ih =>
    rw [maximalRuns, if_pos hb]
    intro r hr x hx
    rcases List.mem_cons.1 hr with h | h
    · subst h
      exact List.mem_takeWhile_imp hx
    · exact ih r h x hx
  | case3 b rest hb ih =>
    rw [maximalRuns, if_neg hb]
    exact ih

theorem hexVal_hexDigitChar : ∀ m : Nat, m < 16 → hexVal (hexDigitChar m) = some m := by
  decide

theorem char_eq_ofNat {c : Char} {n : Nat} (h : c.toNat = n) : c = Char.ofNat n := by
  rw [← h, Char.ofNat_toNat]

theorem parseStrBody_quote (r : List Char) : parseStrBody ('"' :: r) = some ([], r) := by
  rw [parseStrBody.eq_def]
  simp

theorem parseStrBody_esc1 (e ch : Char) (r : List Char) (he : escOf e = some ch)
    (hu : e ≠ 'u') :
    parseStrBody ('\\' :: e :: r) = (parseStrBody r).map fun p => (ch :: p.1, p.2) := by
  rw [parseStrBody.eq_def]
  simp only [if_neg hu, he, reduceCtorEq, reduceIte]
  rw [if_neg (by decide)]

theorem parseStrBody_u (h1 h2 h3 h4 : Char) (a b cc d : Nat) (r : List Char)
    (e1 : hexVal h1 = some a) (e2 : hexVal h2 = some b)
    (e3 : hexVal h3 = some cc) (e4 : hexVal h4 = some d) :
    parseStrBody ('\\' :: 'u' :: h1 :: h2 :: h3 :: h4 :: r)
      = (parseStrBody r).map fun p =>
          (Char.ofNat (a * 4096 + b * 256 + cc * 16 + d) :: p.1, p.2) := by
  rw [parseStrBody.eq_def]
  simp only [e1, e2, e3, e4, reduceCtorEq, reduceIte]
  rw [if_neg (by decide)]

theorem parseStrBody_lit (c : Char) (r : List Char) (hq : c ≠ '"') (hb : c ≠ '\\')
    (h32 : 32 ≤ c.toNat) :
    parseStrBody (c :: r) = (parseStrBody r).map fun p => (c :: p.1, p.2) := by
  rw [parseStrBody.eq_def]
  simp only [if_neg hq, if_neg hb, if_pos h32]

theorem escapeJsonString_cons (c : Char) (t : List Char) :
    escapeJsonString (c :: t) = escapeJsonChar c ++ escapeJsonString t := by
  simp [escapeJsonString]

theorem parseStrBody_escape (t : List Char) : ∀ (r : List Char),
    parseStrBody (escapeJsonString t ++ '"' :: r) = some (t, r) := by
  induction t with
  | nil =>
    intro r
    show parseStrBody ('"' :: r) = some ([], r)
    exact parseStrBody_quote r
  | cons c t' ih =>
    intro r
    rw [escapeJsonString_cons, List.append_assoc]
    by_cases h1 : c = '\\'
    · subst h1
      rw [show escapeJsonChar '\\' = ['\\', '\\'] by rfl]
      rw [show (['\\', '\\'] : List Char) ++ (escapeJsonString t' ++ '"' :: r)
        = '\\' :: '\\' :: (escapeJsonString t' ++ '"' :: r) by rfl]
      rw [parseStrBody_esc1 '\\' '\\' _ (by decide) (by decide), ih r]
      rfl
    · by_cases h2 : c = '"'
      · subst h2
        rw [show escapeJsonChar '"' = ['\\', '"'] by rfl]
        rw [show (['\\', '"'] : List Char) ++ (escapeJsonString t' ++ '"' :: r)
          = '\\' :: '"' :: (escapeJsonString t' ++ '"' :: r) by rfl]
        rw [parseStrBody_esc1 '"' '"' _ (by decide) (by decide), ih r]
        rfl
      · by_cases h3 : c.toNat < 32
        · have hne1 : ¬ c = '\\' := h1
          have hne2 : ¬ c = '"' := h2
          by_cases h8 : c.toNat = 8
          · rw [show escapeJsonChar c = ['\\', 'b'] by
              rw [escapeJsonChar, if_neg hne1, if_neg hne2, if_pos h3, if_pos h8]]
            rw [show (['\\', 'b'] : List Char) ++ (escapeJsonString t' ++ '"' :: r)
              = '\\' :: 'b' :: (escapeJsonString t' ++ '"' :: r) by rfl]
            rw [parseStrBody_esc1 'b' (Char.ofNat 8) _ (by decide) (by decide), ih r]
            rw [← char_eq_ofNat h8]
            rfl
          · by_cases h9 : c.toNat = 9
            · rw [show escapeJsonChar c = ['\\', 't'] by
                rw [escapeJsonChar, if_neg hne1, if_neg hne2, if_pos h3, if_neg h8,
                  if_pos h9]]
              rw [show (['\\', 't'] : List Char) ++ (escapeJsonString t' ++ '"' :: r)
                = '\\' :: 't' :: (escapeJsonString t' ++ '"' :: r) by rfl]
              rw [parseStrBody_esc1 't' (Char.ofNat 9) _ (by decide) (by decide), ih r]
              rw [← char_eq_ofNat h9]
              rfl
            · by_cases h10 : c.toNat = 10
              · rw [show escapeJsonChar c = ['\\', 'n'] by
                  rw [escapeJsonChar, if_neg hne1, if_neg hne2, if_pos h3, if_neg h8,
                    if_neg h9, if_pos h10]]
                rw [show (['\\', 'n'] : List Char) ++ (escapeJsonString t' ++ '"' :: r)
                  = '\\' :: 'n' :: (escapeJsonString t' ++ '"' :: r) by rfl]
                rw [parseStrBody_esc1 'n' (Char.ofNat 10) _ (by decide) (by decide),
                  ih r]
                rw [← char_eq_ofNat h10]
                rfl
              · by_cases h12 : c.toNat = 12
                · rw [show escapeJsonChar c = ['\\', 'f'] by
                    rw [escapeJsonChar, if_neg hne1, if_neg hne2, if_pos h3, if_neg h8,
                      if_neg h9, if_neg h10, if_pos h12]]
                  rw [show (['\\', 'f'] : List Char) ++ (escapeJsonString t' ++ '"' :: r)
                    = '\\' :: 'f' :: (escapeJsonString t' ++ '"' :: r) by rfl]
                  rw [parseStrBody_esc1 'f' (Char.ofNat 12) _ (by decide) (by decide),
                    ih r]
                  rw [← char_eq_ofNat h12]
                  rfl
                · by_cases h13 : c.toNat = 13
                  · rw [show escapeJsonChar c = ['\\', 'r'] by
                      rw [escapeJsonChar, if_neg hne1, if_neg hne2, if_pos h3,
                        if_neg h8, if_neg h9, if_neg h10, if_neg h12, if_pos h13]]
                    rw [show (['\\', 'r'] : List Char) ++ (escapeJsonString t' ++ '"' :: r)
                      = '\\' :: 'r' :: (escapeJsonString t' ++ '"' :: r) by rfl]
                    rw [parseStrBody_esc1 'r' (Char.ofNat 13) _ (by decide) (by decide),
                      ih r]
                    rw [← char_eq_ofNat h13]
                    rfl
                  · rw [show escapeJsonChar c = ['\\', 'u', '0', '0',
                        hexDigitChar (c.toNat / 16), hexDigitChar (c.toNat % 16)] by
                      rw [escapeJsonChar, if_neg hne1, if_neg hne2, if_pos h3,
                        if_neg h8, if_neg h9, if_neg h10, if_neg h12, if_neg h13]]
                    rw [show (['\\', 'u', '0', '0', hexDigitChar (c.toNat / 16),
                        hexDigitChar (c.toNat % 16)] : List Char)
                        ++ (escapeJsonString t' ++ '"' :: r)
                      = '\\' :: 'u' :: '0' :: '0' :: hexDigitChar (c.toNat / 16)
                        :: hexDigitChar (c.toNat % 16)
                        :: (escapeJsonString t' ++ '"' :: r) by rfl]
                    rw [parseStrBody_u '0' '0' (hexDigitChar (c.toNat / 16))
                      (hexDigitChar (c.toNat % 16)) 0 0 (c.toNat / 16) (c.toNat % 16)
                      _ (by decide) (by decide)
                      (hexVal_hexDigitChar _ (by omega))
                      (hexVal_hexDigitChar _ (Nat.mod_lt _ (by omega))), ih r]
                    have hch : (0 : Nat) * 4096 + 0 * 256 + c.toNat / 16 * 16
                        + c.toNat % 16 = c.toNat := by
                      omega
                    rw [hch, Char.ofNat_toNat]
                    rfl
        · have h32 : 32 ≤ c.toNat := by omega
          rw [show escapeJsonChar c = [c] by
            rw [escapeJsonChar, if_neg h1, if_neg h2, if_neg h3]]
          rw [show ([c] : List Char) ++ (escapeJsonString t' ++ '"' :: r)
            = c :: (escapeJsonString t' ++ '"' :: r) by rfl]
          rw [parseStrBody_lit c _ h2 h1 h32, ih r]
          rfl

theorem skipWs_cons (c : Char) (s : List Char)
    (h : ¬(c = ' ' ∨ c = '\t' ∨ c = '\n' ∨ c = '\r')) : skipWs (c :: s) = c :: s := by
  rw [skipWs, List.dropWhile_cons_of_neg]
  simpa using h

theorem skipWs_space (s : List Char) : skipWs (' ' :: s) = skipWs s := by
  rw [skipWs, List.dropWhile_cons_of_pos (by simp)]
  rfl

theorem parseTextObj_dumps (t : List Char) :
    parseTextObj (jsonDumpsTextObj t) = some t := by
  have hval := parseStrBody_escape t ['}']
  rw [jsonDumpsTextObj]
  unfold parseTextObj
  rw [skipWs_cons _ _ (by decide)]
  simp only []
  rw [skipWs_cons _ _ (by decide)]
  simp only []
  rw [parseStrBody_lit 't' _ (by decide) (by decide) (by decide),
    parseStrBody_lit 'e' _ (by decide) (by decide) (by decide),
    parseStrBody_lit 'x' _ (by decide) (by decide) (by decide),
    parseStrBody_lit 't' _ (by decide) (by decide) (by decide),
    parseStrBody_quote]
  simp only [Option.map_some']
  simp only [if_true]
  rw [skipWs_cons _ _ (by decide)]
  simp only []
  rw [skipWs_space, skipWs_cons _ _ (by decide)]
  simp only []
  rw [hval]
  simp only []
  rw [skipWs_cons _ _ (by decide)]
  simp only []
  rfl

theorem dropWhile_head_false {α : Type} {p : α → Bool} {l : List α} {d : α}
    {ds : List α} (h : l.dropWhile p = d :: ds) : p d = false := by
  have h0 := List.head?_dropWhile_not p l
  rw [h] at h0
  simpa using h0

theorem endswith_iff (tag : List Char) :
    ['}', 't'].isSuffixOf tag = true ↔ ('}' ∈ tag ∧ localName tag = ['t']) := by
  rw [List.isSuffixOf_iff_suffix]
  constructor
  · rintro ⟨s, hs⟩
    subst hs
    constructor
    · simp
    · rw [localName, List.reverse_append]
      simp [List.takeWhile_cons]
  · rintro ⟨h1, h2⟩
    rw [localName] at h2
    have h2' : tag.reverse.takeWhile (fun c => decide (c ≠ '}')) = ['t'] := by
      have := congrArg List.reverse h2
      simpa using this
    have hsplit := List.takeWhile_append_dropWhile
      (fun c => decide (c ≠ '}')) tag.reverse
    cases hdrop : tag.reverse.dropWhile (fun c => decide (c ≠ '}')) with
    | nil =>
      rw [h2', hdrop] at hsplit
      have hmem : '}' ∈ tag.reverse := by simpa using h1
      rw [← hsplit] at hmem
      simp at hmem
    | cons d ds =>
      have hd : d = '}' := by
        have := dropWhile_head_false hdrop
        simpa using this
      rw [h2', hdrop, hd] at hsplit
      refine ⟨ds.reverse, ?_⟩
      have := congrArg List.reverse hsplit
      simpa using this

/-- C5: for every MIME-type argument other than the two recognized exact
strings (including an empty or absent argument), no extractor is invoked —
the output is independent of the world and of the input bytes — and the
process writes the serialization of the empty text. -/
theorem c5_unrecognized_mime_empty (w : World) (argv : List String)
    (stdin : List Char) (h1 : argvMime argv ≠ docxMime)
    (h2 : argvMime argv ≠ pdfMime) :
    mainOutput w argv stdin =
      ['{', '"', 't', 'e', 'x', 't', '"', ':', ' ', '"', '"', '}'] := by
  rw [mainOutput, extractedText, if_neg h1, if_neg h2]
  rfl

theorem c5_witness :
    argvMime ["prog", "text/plain"] ≠ docxMime ∧
    argvMime ["prog", "text/plain"] ≠ pdfMime ∧
    mainOutput failWorld ["prog", "text/plain"] ['Q', 'Q', '=', '='] =
      ['{', '"', 't', 'e', 'x', 't', '"', ':', ' ', '"', '"', '}'] :=
  ⟨by decide, by decide,
    c5_unrecognized_mime_empty failWorld ["prog", "text/plain"]
      ['Q', 'Q', '=', '='] (by decide) (by decide)⟩

/-- C6: the extractors are total (no exception escapes, which the
embedding renders as totality of the Lean functions): whenever the
DOCX parsing chain fails — empty input, unreadable archive, missing
entry, or malformed XML — `extract_docx` returns the empty string, and
whenever Tier 1 fails `extract_pdf` returns the Tier 2 heuristic result,
which is the empty string on empty input. -/
theorem c6_failures_degrade :
    (∀ (w : World) (data : List Nat),
      docxDoc w data = none → extract_docx w data = []) ∧
    (∀ (w : World) (data : List Nat), data ≠ [] →
      w.pdfTier1 data = .error () → extract_pdf w data = tier2 data) ∧
    (∀ w : World, extract_pdf w [] = []) := by
  refine ⟨?_, ?_, ?_⟩
  · intro w data h
    rw [extract_docx, h]
  · intro w data h1 h2
    rw [extract_pdf, if_neg h1, h2]
  · intro w
    rw [extract_pdf, if_pos rfl]

theorem c6_witness :
    extract_docx failWorld [5] = [] ∧
    extract_pdf failWorld [5] = tier2 [5] ∧
    extract_pdf failWorld [] = [] :=
  ⟨c6_failures_degrade.1 failWorld [5] rfl,
    c6_failures_degrade.2.1 failWorld [5] (by decide) rfl,
    c6_failures_degrade.2.2 failWorld⟩

/-- C7: in Tier 1, a page whose text extraction raises is skipped while
the remaining pages are joined with newlines and trimmed; and when the
library import or reader construction fails, `extract_pdf` falls through
to the Tier 2 heuristic on the same bytes. -/
theorem c7_page_failure_skipped :
    (∀ (w : World) (data : List Nat)
      (pre post : List (Except Unit (Option (List Char)))), data ≠ [] →
      w.pdfTier1 data = .ok (pre ++ .error () :: post) →
      extract_pdf w data = pyStrip (pyJoin ['\n'] (pageChunks (pre ++ post)))) ∧
    (∀ (w : World) (data : List Nat), data ≠ [] →
      w.pdfTier1 data = .error () → extract_pdf w data = tier2 data) := by
  constructor
  · intro w data pre post h1 h2
    rw [extract_pdf, if_neg h1, h2]
    have hchunks : pageChunks (pre ++ .error () :: post) = pageChunks (pre ++ post) := by
      rw [pageChunks, pageChunks, List.filterMap_append, List.filterMap_append,
        List.filterMap_cons]
    simp only []
    rw [hchunks]
  · intro w data h1 h2
    rw [extract_pdf, if_neg h1, h2]

theorem c7_witness :
    extract_pdf pagesWorld [9] =
      pyStrip (pyJoin ['\n'] (pageChunks [.ok (some ['a']), .ok none])) ∧
    extract_pdf failWorld [9] = tier2 [9] :=
  ⟨c7_page_failure_skipped.1 pagesWorld [9] [] [.ok (some ['a']), .ok none]
      (by decide) rfl,
    c7_page_failure_skipped.2 failWorld [9] (by decide) rfl⟩

/-- C8: empty decoded input with a recognized MIME type short-circuits:
both extractors return the empty string on empty bytes for every world
(so no archive, reader or byte scan is consulted), and the process then
writes the serialization of the empty text, which is the twelve
characters of the empty-text JSON object. -/
theorem c8_empty_input_short_circuit :
    (∀ w : World, extract_docx w [] = []) ∧
    (∀ w : World, extract_pdf w [] = []) ∧
    (∀ (w : World) (argv : List String) (stdin : List Char),
      read_stdin stdin = [] →
      (argvMime argv = docxMime ∨ argvMime argv = pdfMime) →
      mainOutput w argv stdin = jsonDumpsTextObj []) ∧
    jsonDumpsTextObj [] =
      ['{', '"', 't', 'e', 'x', 't', '"', ':', ' ', '"', '"', '}'] := by
  have hdocx : ∀ w : World, extract_docx w [] = [] := by
    intro w
    rw [extract_docx, docxDoc, if_pos rfl]
  have hpdf : ∀ w : World, extract_pdf w [] = [] := by
    intro w
    rw [extract_pdf, if_pos rfl]
  refine ⟨hdocx, hpdf, ?_, by decide⟩
  intro w argv stdin h hm
  rw [mainOutput, extractedText]
  rcases hm with hm | hm
  · rw [if_pos hm, h, hdocx]
  · by_cases hd : argvMime argv = docxMime
    · rw [if_pos hd, h, hdocx]
    · rw [if_neg hd, if_pos hm, h, hpdf]

theorem c8_witness :
    read_stdin [] = [] ∧
    mainOutput failWorld ["prog", docxMime] [] = jsonDumpsTextObj [] :=
  ⟨rfl, c8_empty_input_short_circuit.2.2.1 failWorld ["prog", docxMime] [] rfl
    (Or.inl rfl)⟩

/-- C10: with the PDF library unavailable (its import always failing) and
the deterministic standard libraries fixed, the output is a function of
the argument list and the standard-input text alone: two runs agree on
every input. -/
theorem c10_deterministic_without_pdf_lib (w1 w2 : World)
    (hz : w1.unzip = w2.unzip) (hx : w1.xmlParse = w2.xmlParse)
    (h1 : ∀ d, w1.pdfTier1 d = .error ())
    (h2 : ∀ d, w2.pdfTier1 d = .error ())
    (argv : List String) (stdin : List Char) :
    mainOutput w1 argv stdin = mainOutput w2 argv stdin := by
  rw [mainOutput, mainOutput, extractedText, extractedText]
  by_cases hm : argvMime argv = docxMime
  · rw [if_pos hm, if_pos hm, extract_docx, extract_docx, docxDoc, docxDoc, hz, hx]
  · rw [if_neg hm, if_neg hm]
    by_cases hp : argvMime argv = pdfMime
    · rw [if_pos hp, if_pos hp, extract_pdf, extract_pdf]
      by_cases hd : read_stdin stdin = []
      · rw [if_pos hd, if_pos hd]
      · rw [if_neg hd, if_neg hd, h1, h2]
    · rw [if_neg hp, if_neg hp]

theorem c10_witness :
    mainOutput failWorld ["prog", "application/pdf"] ['A', 'A', 'A', 'A'] =
      mainOutput failWorld ["prog", "application/pdf"] ['A', 'A', 'A', 'A'] :=
  c10_deterministic_without_pdf_lib failWorld failWorld rfl rfl
    (fun _ => rfl) (fun _ => rfl) ["prog", "application/pdf"]
    ['A', 'A', 'A', 'A']

/-- C1: for every world, argument list and standard-input text, the
process output is the serialization of some text string, the exactly-one-
member JSON object parser recovers that string from the output (so the
output is syntactically valid JSON with exactly one field `text` of
string type), and the serializer emits every non-ASCII character
literally rather than escaped. -/
theorem c1_output_always_text_object (w : World) (argv : List String)
    (stdin : List Char) :
    ∃ t : List Char,
      mainOutput w argv stdin = jsonDumpsTextObj t ∧
      parseTextObj (mainOutput w argv stdin) = some t ∧
      ∀ c : Char, 128 ≤ c.toNat → escapeJsonChar c = [c] := by
  refine ⟨extractedText w argv stdin, rfl, parseTextObj_dumps _, ?_⟩
  intro c hc
  have h1 : ¬ c = '\\' := by
    intro h
    subst h
    exact absurd hc (by decide)
  have h2 : ¬ c = '"' := by
    intro h
    subst h
    exact absurd hc (by decide)
  have h3 : ¬ c.toNat < 32 := by omega
  rw [escapeJsonChar, if_neg h1, if_neg h2, if_neg h3]

theorem c1_witness :
    ∃ t : List Char,
      mainOutput failWorld [] ['x'] = jsonDumpsTextObj t ∧
      parseTextObj (mainOutput failWorld [] ['x']) = some t ∧
      ∀ c : Char, 128 ≤ c.toNat → escapeJsonChar c = [c] :=
  c1_output_always_text_object failWorld [] ['x']

/-- C4: on every non-empty byte sequence the Tier 2 heuristic returns the
trimmed space-join of the first at most 400 maximal printable runs of
length at least 6, in scan order, each converted one character per
byte. -/
theorem c4_tier2_first_400_runs (data : List Nat) (h : data ≠ []) :
    tier2 data = claimedTier2 data :=
  tier2_eq_claimed data

theorem c4_witness :
    ([72, 101, 108, 108, 111, 33, 0, 97] : List Nat) ≠ [] ∧
    tier2 [72, 101, 108, 108, 111, 33, 0, 97] =
      claimedTier2 [72, 101, 108, 108, 111, 33, 0, 97] :=
  ⟨by decide, c4_tier2_first_400_runs [72, 101, 108, 108, 111, 33, 0, 97]
    (by decide)⟩

/-- C9: every character of a Tier 2 result has a code point between 32
and 126, so the fallback output never contains newlines, control
characters or non-ASCII characters. -/
theorem c9_tier2_output_printable (data : List Nat) (c : Char)
    (hc : c ∈ tier2 data) : 32 ≤ c.toNat ∧ c.toNat ≤ 126 := by
  rw [tier2_eq_claimed, claimedTier2] at hc
  have hc2 := mem_pyStrip hc
  rcases mem_pyJoin hc2 with h | ⟨x, hx1, hx2⟩
  · have : c = ' ' := by simpa using h
    subst this
    exact ⟨by decide, by decide⟩
  · rcases List.mem_map.1 hx1 with ⟨r, hr1, hr2⟩
    subst hr2
    rcases List.mem_map.1 hx2 with ⟨b, hb1, hb2⟩
    subst hb2
    have hrmem : r ∈ maximalRuns data := by
      have h1 := (List.take_sublist 400 _).subset hr1
      exact (List.mem_filter.1 h1).1
    have hb := mem_maximalRuns_printable data r hrmem b hb1
    have hb' : 32 ≤ b ∧ b ≤ 126 := by simpa [isPrintableByte] using hb
    rw [toNat_ofNat_small b (by omega)]
    exact hb'

theorem c9_witness :
    'H' ∈ tier2 [72, 101, 108, 108, 111, 33, 0, 97] ∧
    (32 ≤ 'H'.toNat ∧ 'H'.toNat ≤ 126) :=
  ⟨by decide, c9_tier2_output_printable [72, 101, 108, 108, 111, 33, 0, 97]
    'H' (by decide)⟩

/-- C2 (amended): the decoder is total — modelling that it never raises —
and returns the empty byte sequence exactly when the stripped input is
empty, contains a non-ASCII character, or when the lenient base64 state
machine (which first discards all non-alphabet characters) errors or
yields no bytes; mere ill-formedness of the base64 text does not force an
empty result, because discarded characters can leave a decodable
residue. -/
theorem c2_decoder_empty_characterization (stdin : List Char) :
    read_stdin stdin = [] ↔
      (pyStrip stdin = [] ∨ (∃ c ∈ pyStrip stdin, 128 ≤ c.toNat) ∨
        a2bBase64 (pyStrip stdin) = none ∨
        a2bBase64 (pyStrip stdin) = some []) := by
  rw [read_stdin]
  by_cases h1 : pyStrip stdin = []
  · simp [h1]
  · rw [if_neg h1]
    by_cases h2 : (pyStrip stdin).any (fun c => decide (128 ≤ c.toNat)) = true
    · rw [if_pos h2]
      simp only [List.any_eq_true, decide_eq_true_eq] at h2
      simp [h2]
    · rw [if_neg h2]
      simp only [List.any_eq_true, decide_eq_true_eq] at h2
      push_neg at h2
      cases h3 : a2bBase64 (pyStrip stdin) with
      | none => simp [h1, h3]
      | some bs =>
        simp only []
        constructor
        · intro hb
          subst hb
          simp
        · intro hor
          rcases hor with h | ⟨c, hc1, hc2⟩ | h | h
          · exact absurd h h1
          · exact absurd hc2 (by simpa using h2 c hc1)
          · exact absurd h (by simp)
          · simpa using h

theorem c2_counterexample_invalid_decodes :
    isWellFormedBase64 (pyStrip ['a', 'b', '!', 'c', 'd']) = false ∧
    read_stdin ['a', 'b', '!', 'c', 'd'] = [105, 183, 29] ∧
    ([105, 183, 29] : List Nat) ≠ [] := by
  refine ⟨by decide, by decide, by decide⟩

/-- C3 (amended): for a byte sequence on which the archive yields the
entry `word/document.xml` and the XML parser yields a tree, the DOCX
extractor returns the space-joined, trimmed concatenation, in depth-first
document order, of the non-empty text of every element whose tag contains
a namespace delimiter and has local name `t` — equivalently, whose tag
ends in `}t`; an element named plainly `t` with no namespace prefix is
not collected. -/
theorem c3_docx_collects_namespaced_t (w : World) (data : List Nat)
    (entries : List (String × List Nat)) (xmlBytes : List Nat) (root : XmlElem)
    (h4 : data ≠ []) (h1 : w.unzip data = some entries)
    (h2 : lookupEntry entries docEntryName = some xmlBytes)
    (h3 : w.xmlParse xmlBytes = some root) :
    extract_docx w data = pyStrip (pyJoin [' '] (amendedDocxTexts root)) := by
  have hdoc : docxDoc w data = some root := by
    rw [docxDoc, if_neg h4, h1]
    simp only []
    rw [h2]
    simp only []
    exact h3
  have htexts : docxTexts root = amendedDocxTexts root := by
    rw [docxTexts, amendedDocxTexts]
    apply List.filterMap_congr
    intro e he
    cases hx : e.text with
    | none => rfl
    | some s =>
      simp only []
      by_cases hcond : ['}', 't'].isSuffixOf e.tag = true ∧ s ≠ []
      · rw [if_pos hcond, if_pos ⟨(endswith_iff _).1 hcond.1, hcond.2⟩]
      · rw [if_neg hcond, if_neg (fun hc => hcond ⟨(endswith_iff _).2 hc.1, hc.2⟩)]
  rw [extract_docx, hdoc]
  simp only []
  rw [htexts]

theorem c3_witness :
    extract_docx cexWorld [1] = pyStrip (pyJoin [' '] (amendedDocxTexts cexRoot)) :=
  c3_docx_collects_namespaced_t cexWorld [1] [(docEntryName, [7])] [7] cexRoot
    (by decide) rfl rfl rfl

theorem c3_counterexample_unprefixed_t :
    cexWorld.unzip [1] = some [(docEntryName, [7])] ∧
    lookupEntry [(docEntryName, [7])] docEntryName = some [7] ∧
    cexWorld.xmlParse [7] = some cexRoot ∧
    ([1] : List Nat) ≠ [] ∧
    extract_docx cexWorld [1] = [] ∧
    pyStrip (pyJoin [' '] (claimedDocxTexts cexRoot)) = ['h', 'i'] ∧
    ([] : List Char) ≠ ['h', 'i'] := by
  have hiter : XmlElem.iter cexRoot = [cexRoot] := by
    rw [show cexRoot = XmlElem.node ['t'] (some ['h', 'i']) [] from rfl,
      XmlElem.iter]
    simp
  refine ⟨rfl, rfl, rfl, by decide, ?_, ?_, by decide⟩
  · have hdoc : docxDoc cexWorld [1] = some cexRoot := rfl
    rw [extract_docx, hdoc]
    simp only []
    rw [docxTexts, hiter]
    decide
  · rw [claimedDocxTexts, hiter]
    decide
